import Mathlib

set_option maxHeartbeats 1000000

/-
Shallow embedding of the segmented resumable downloader and rendition
selector of vimeo_dl.py.  Bytes are modelled as natural numbers; the HTTP
session is an external collaborator modelled as an oracle from segment
position to either the segment body or a failure cause (the resolved URL a
segment is fetched from is a function of its position in the rendition's
segment list).
-/

/-- One media segment of a rendition: a relative URL and the exact byte size
it contributes to the output file (manifest fields `url` and `size`). -/
structure Segment where
  url : String
  size : Nat
deriving DecidableEq

/-- One selectable rendition.  Optional fields mirror Python dict lookups
with defaults; `init_data` holds the already base64-decoded bytes of the
manifest's `init_segment` text (decoded once, at the parse boundary). -/
structure Rendition where
  height : Option Nat
  width : Option Nat
  bitrate : Option Nat
  avg_bitrate : Option Nat
  base_url : String
  init_data : List Nat
  segments : List Segment
deriving DecidableEq

/-- The parsed manifest: the top-level `video` and `audio` keys are each
either absent (`none`) or a list of renditions. -/
structure Manifest where
  base_url : String
  video : Option (List Rendition)
  audio : Option (List Rendition)
deriving DecidableEq

/-- Python tuple comparison (strict less-than) on the video scoring triple
`(height, width, bitrate)`. -/
def tripLt (a b : Nat × Nat × Nat) : Prop :=
  a.1 < b.1 ∨ (a.1 = b.1 ∧ (a.2.1 < b.2.1 ∨ (a.2.1 = b.2.1 ∧ a.2.2 < b.2.2)))

instance (a b : Nat × Nat × Nat) : Decidable (tripLt a b) := by
  unfold tripLt; exact inferInstance

/-- The video scoring key of `_best`:
`(v.get("height", 0), v.get("width", 0), v.get("bitrate", 0))`. -/
def videoKey (v : Rendition) : Nat × Nat × Nat :=
  (v.height.getD 0, v.width.getD 0, v.bitrate.getD 0)

/-- The audio scoring key of `_best`: `a.get("bitrate", 0)`. -/
def audioKey (a : Rendition) : Nat :=
  a.bitrate.getD 0

/-- Strict comparison of two renditions under the video scoring key, as
performed element-wise by Python's `max`. -/
def ltVideo (a b : Rendition) : Bool :=
  decide (tripLt (videoKey a) (videoKey b))

/-- Strict comparison of two renditions under the audio scoring key. -/
def ltAudio (a b : Rendition) : Bool :=
  decide (audioKey a < audioKey b)

/-- CPython `max(iterable, key=...)`: start from the first element and
replace the candidate exactly when a strictly greater key appears, so the
first maximal element wins ties; an empty iterable raises `ValueError`,
modelled as `none`. -/
def pyMaxAux (lt : α → α → Bool) : α → List α → α
  | acc, [] => acc
  | acc, y :: ys => pyMaxAux lt (if lt acc y then y else acc) ys

/-- `max` over a possibly empty list, as used by `_best`. -/
def pyMax (lt : α → α → Bool) : List α → Option α
  | [] => none
  | x :: xs => some (pyMaxAux lt x xs)

/-- `_best(streams, video=...)`: maximum of the list under the mode's
scoring key. -/
def best (streams : List Rendition) (video : Bool) : Option Rendition :=
  if video then pyMax ltVideo streams else pyMax ltAudio streams

/-- Result of the resume computation at the top of `_download_resumable`. -/
inductive ResumePoint where
  | startFresh
  | resumeAt (i : Nat)
  | alreadyComplete
deriving DecidableEq

/-- The inline resume loop: walk the segment sizes accumulating
`cumulative_bytes += seg["size"]`; the first index whose cumulative sum
strictly exceeds `downloaded_media_bytes` is the resume index, and if the
walk completes the file is already fully downloaded (`none`). -/
def findResumeAux (d : Nat) : Nat → Nat → List Nat → Option Nat
  | _, _, [] => none
  | cumulative, idx, s :: rest =>
    if d < cumulative + s then some idx
    else findResumeAux d (cumulative + s) (idx + 1) rest

/-- The resume walk started with `cumulative_bytes = 0` at index 0. -/
def findResume (d : Nat) (sizes : List Nat) : Option Nat :=
  findResumeAux d 0 0 sizes

/-- The full resume decision of `_download_resumable`: a missing file has
size 0; a file no longer than the init block is scrapped and rewritten
(`mode = "wb"`); otherwise the walk over `downloaded_media_bytes =
current_size - init_size` yields either a resume index (`mode = "ab"`) or
the already-complete early return. -/
def locateResume (existingFileSize initSizeBytes : Nat) (sizes : List Nat) :
    ResumePoint :=
  if existingFileSize ≤ initSizeBytes then .startFresh
  else
    match findResume (existingFileSize - initSizeBytes) sizes with
    | some i => .resumeAt i
    | none => .alreadyComplete

/-- The error printed on a failed segment fetch: the segment's position and
the underlying cause. -/
structure FetchErr where
  segmentIndex : Nat
  cause : String
deriving DecidableEq

/-- Observable outcome of one `_download_resumable` call: the final on-disk
file (`none` if it still does not exist), the indices requested from the
network in order, whether the file was opened for writing, and success or
the fetch error that aborted the run. -/
structure RunResult where
  file : Option (List Nat)
  requests : List Nat
  openedForWrite : Bool
  outcome : Except FetchErr Unit

/-- `os.path.getsize`, with a missing file contributing size 0. -/
def fileSize : Option (List Nat) → Nat
  | none => 0
  | some c => c.length

/-- The download loop of `_download_resumable` from segment index `i` on:
each iteration issues one request; a successful body is appended to the file
whole (the body is fully in memory before the write), a failure aborts the
loop at once with the segment's index and cause. -/
def downloadLoop (net : Nat → Except String (List Nat)) :
    Nat → List Segment → List Nat → List Nat →
    List Nat × List Nat × Except FetchErr Unit
  | _, [], f, reqs => (f, reqs, Except.ok ())
  | i, _ :: rest, f, reqs =>
    match net i with
    | Except.ok bytes => downloadLoop net (i + 1) rest (f ++ bytes) (reqs ++ [i])
    | Except.error e => (f, reqs ++ [i], Except.error ⟨i, e⟩)

/-- `_download_resumable`: resume decision, then the download loop.
Starting fresh truncates the file (`"wb"`), writes the decoded init block
and fetches every segment; resuming opens in append mode (`"ab"`, no
truncation, no init rewrite) and fetches from the resume index; an
already-complete file is returned untouched, before any open for writing. -/
def downloadResumable (rep : Rendition) (file : Option (List Nat))
    (net : Nat → Except String (List Nat)) : RunResult :=
  match locateResume (fileSize file) rep.init_data.length
      (rep.segments.map Segment.size) with
  | .alreadyComplete => ⟨file, [], false, Except.ok ()⟩
  | .startFresh =>
    let r := downloadLoop net 0 rep.segments rep.init_data []
    ⟨some r.1, r.2.1, true, r.2.2⟩
  | .resumeAt i =>
    let r := downloadLoop net i (rep.segments.drop i) (file.getD []) []
    ⟨some r.1, r.2.1, true, r.2.2⟩

/-- Terminal failures of `main`: the unknown-manifest exit, the
`ValueError` raised by `max` on an empty rendition list (surfaced as a
generic error), a segment fetch failure, and a failed ffmpeg invocation. -/
inductive MainError where
  | manifestUnsupported
  | selectorError
  | fetchError (e : FetchErr)
  | muxError
deriving DecidableEq

/-- Observable trace of one `main` run: outcome, whether ffmpeg was
invoked, which temporary files the final cleanup removed, and the output
paths handed to `_download_resumable` in order. -/
structure MainTrace where
  outcome : Except MainError Unit
  muxInvoked : Bool
  tmpRemoved : List String
  fetchedPaths : List String

/-- The constant temporary video path of combined mode. -/
def tmpVideoName : String := "tmp_video.mp4"

/-- The constant temporary audio path of combined mode. -/
def tmpAudioName : String := "tmp_audio.m4a"

/-- `main` after manifest load: the structure check `"video" in data and
"audio" in data`, rendition selection, the downloads (audio-only writes to
the requested output; combined mode writes to the two fixed temporary
paths), the mux step, and the final cleanup that runs only after a
successful mux.  `fs` is the pre-run filesystem, `netV`/`netA` the network
oracles for the selected renditions, `muxOk` the external ffmpeg outcome. -/
def mainRun (data : Manifest) (audioOnly : Bool) (output : String)
    (fs : String → Option (List Nat))
    (netV netA : Nat → Except String (List Nat)) (muxOk : Bool) : MainTrace :=
  match data.video, data.audio with
  | some videoList, some audioList =>
    if audioOnly then
      match best audioList false with
      | none => ⟨Except.error .selectorError, false, [], []⟩
      | some arep =>
        let r := downloadResumable arep (fs output) netA
        match r.outcome with
        | Except.error e => ⟨Except.error (.fetchError e), false, [], [output]⟩
        | Except.ok _ => ⟨Except.ok (), false, [], [output]⟩
    else
      match best videoList true with
      | none => ⟨Except.error .selectorError, false, [], []⟩
      | some vrep =>
        match best audioList false with
        | none => ⟨Except.error .selectorError, false, [], []⟩
        | some arep =>
          let rv := downloadResumable vrep (fs tmpVideoName) netV
          match rv.outcome with
          | Except.error e =>
            ⟨Except.error (.fetchError e), false, [], [tmpVideoName]⟩
          | Except.ok _ =>
            let ra := downloadResumable arep (fs tmpAudioName) netA
            match ra.outcome with
            | Except.error e =>
              ⟨Except.error (.fetchError e), false, [],
                [tmpVideoName, tmpAudioName]⟩
            | Except.ok _ =>
              if muxOk then
                ⟨Except.ok (), true, [tmpVideoName, tmpAudioName],
                  [tmpVideoName, tmpAudioName]⟩
              else
                ⟨Except.error .muxError, true, [],
                  [tmpVideoName, tmpAudioName]⟩
  | _, _ => ⟨Except.error .manifestUnsupported, false, [], []⟩

/-- Spec-side definition, from the spec's words only, for comparison with
the code's scoring key: a bitrate that "falls back to an average-bitrate
field when absent, defaulting to 0 if both absent". -/
def specEffectiveBitrate (r : Rendition) : Nat :=
  r.bitrate.getD (r.avg_bitrate.getD 0)

/-- Spec-side predicate, from claim C6's words only: the condition under
which the run is claimed to fail with `ManifestUnsupported` — the rendition
lists required by the requested mode are missing or empty (audio-only
requires only the audio list; combined mode requires both). -/
def specRequiredListMissing (data : Manifest) (audioOnly : Bool) : Prop :=
  if audioOnly then data.audio = none ∨ data.audio = some []
  else (data.video = none ∨ data.video = some []) ∨
    (data.audio = none ∨ data.audio = some [])

instance (data : Manifest) (audioOnly : Bool) :
    Decidable (specRequiredListMissing data audioOnly) := by
  unfold specRequiredListMissing; exact inferInstance

/-
Concrete example data used to evaluate the definitions on closed inputs.
-/

/-- A 1080p video rendition with a modest bitrate. -/
def rend1080 : Rendition := ⟨some 1080, some 1920, some 5000, none, "", [], []⟩

/-- A 720p video rendition with a high bitrate. -/
def rend720 : Rendition := ⟨some 720, some 1280, some 8000, none, "", [], []⟩

/-- An audio rendition with an explicit bitrate. -/
def rendAud128 : Rendition := ⟨none, none, some 128, none, "", [], []⟩

/-- An audio rendition with neither `bitrate` nor `avg_bitrate`. -/
def audNoRate : Rendition := ⟨none, none, none, none, "", [], []⟩

/-- An audio rendition with only `avg_bitrate` set. -/
def audAvgOnly : Rendition := ⟨none, none, none, some 128, "", [], []⟩

/-- A rendition with a 5-byte init block and three 10-byte segments. -/
def repC2 : Rendition :=
  ⟨none, none, none, none, "", List.replicate 5 0,
    [⟨"s0", 10⟩, ⟨"s1", 10⟩, ⟨"s2", 10⟩]⟩

/-- An existing 20-byte file: the init block, one full segment and 5 stray
bytes of the interrupted second segment. -/
def fileC2 : List Nat := List.replicate 20 1

/-- A network oracle answering every request with a 10-byte body. -/
def netExact10 : Nat → Except String (List Nat) :=
  fun _ => Except.ok (List.replicate 10 2)

/-- A rendition whose single segment has declared size 0. -/
def repZero : Rendition := ⟨none, none, none, none, "", [7], [⟨"s0", 0⟩]⟩

/-- A network oracle answering every request with an empty body. -/
def netEmpty : Nat → Except String (List Nat) := fun _ => Except.ok []

/-- A rendition with a 1-byte init block and one 2-byte segment. -/
def repOne : Rendition := ⟨none, none, none, none, "", [7], [⟨"s0", 2⟩]⟩

/-- A network oracle answering every request with a 2-byte body. -/
def netTwo : Nat → Except String (List Nat) := fun _ => Except.ok [3, 4]

/-- A rendition with three 1-byte segments. -/
def repC7 : Rendition :=
  ⟨none, none, none, none, "", [9], [⟨"a", 1⟩, ⟨"b", 1⟩, ⟨"c", 1⟩]⟩

/-- A network oracle that fails on segment 1 and succeeds elsewhere. -/
def netFail1 : Nat → Except String (List Nat) :=
  fun i => if i = 1 then Except.error "boom" else Except.ok [5]

/-- A manifest with a populated audio list and no video key at all. -/
def manifestNoVideo : Manifest := ⟨"", none, some [rendAud128]⟩

/-- A manifest with one video and one audio rendition. -/
def manifestBoth : Manifest := ⟨"", some [rend1080], some [rendAud128]⟩

/-- An empty pre-run filesystem. -/
def emptyFs : String → Option (List Nat) := fun _ => none

/-
Characterisation of the resume walk.
-/

lemma findResumeAux_eq_none (d : Nat) :
    ∀ (sizes : List Nat) (c k : Nat),
      findResumeAux d c k sizes = none ↔
        ∀ i, i < sizes.length → c + (sizes.take (i + 1)).sum ≤ d := by
  intro sizes
  induction sizes with
  | nil => intro c k; simp [findResumeAux]
  | cons s rest ih =>
    intro c k
    simp only [findResumeAux]
    split
    · rename_i h
      constructor
      · intro hc; exact absurd hc (by simp)
      · intro hall
        have h0 := hall 0 (by simp)
        simp only [List.take_succ_cons, List.take_zero, List.sum_cons,
          List.sum_nil] at h0
        omega
    · rename_i h
      rw [ih (c + s) (k + 1)]
      constructor
      · intro hall i hi
        cases i with
        | zero =>
          simp only [List.take_succ_cons, List.take_zero, List.sum_cons,
            List.sum_nil]
          omega
        | succ i' =>
          have hi' : i' < rest.length := by simpa using hi
          have := hall i' hi'
          simp only [List.take_succ_cons, List.sum_cons] at this ⊢
          omega
      · intro hall i hi
        have := hall (i + 1) (by simpa using Nat.succ_lt_succ hi)
        simp only [List.take_succ_cons, List.sum_cons] at this ⊢
        omega

lemma findResumeAux_eq_some (d : Nat) :
    ∀ (sizes : List Nat) (c k j : Nat),
      findResumeAux d c k sizes = some j ↔
        ∃ i, i < sizes.length ∧ j = k + i ∧
          d < c + (sizes.take (i + 1)).sum ∧
          ∀ m, m < i → c + (sizes.take (m + 1)).sum ≤ d := by
  intro sizes
  induction sizes with
  | nil => intro c k j; simp [findResumeAux]
  | cons s rest ih =>
    intro c k j
    simp only [findResumeAux]
    split
    · rename_i h
      constructor
      · intro hc
        have hj : k = j := by simpa using hc
        refine ⟨0, by simp, by omega, ?_, by omega⟩
        simp only [List.take_succ_cons, List.take_zero, List.sum_cons,
          List.sum_nil]
        omega
      · rintro ⟨i, hi, hj, hd, hm⟩
        cases i with
        | zero => simp [hj]
        | succ i' =>
          have := hm 0 (by omega)
          simp only [List.take_succ_cons, List.take_zero, List.sum_cons,
            List.sum_nil] at this
          omega
    · rename_i h
      rw [ih (c + s) (k + 1) j]
      constructor
      · rintro ⟨i, hi, hj, hd, hm⟩
        refine ⟨i + 1, by simpa using Nat.succ_lt_succ hi, by omega, ?_, ?_⟩
        · simp only [List.take_succ_cons, List.sum_cons]
          omega
        · intro m hmlt
          cases m with
          | zero =>
            simp only [List.take_succ_cons, List.take_zero, List.sum_cons,
              List.sum_nil]
            omega
          | succ m' =>
            have := hm m' (by omega)
            simp only [List.take_succ_cons, List.sum_cons] at this ⊢
            omega
      · rintro ⟨i, hi, hj, hd, hm⟩
        cases i with
        | zero =>
          simp only [List.take_succ_cons, List.take_zero, List.sum_cons,
            List.sum_nil] at hd
          omega
        | succ i' =>
          refine ⟨i', by simpa using hi, by omega, ?_, ?_⟩
          · simp only [List.take_succ_cons, List.sum_cons] at hd
            omega
          · intro m hmlt
            have := hm (m + 1) (by omega)
            simp only [List.take_succ_cons, List.sum_cons] at this
            omega

lemma locateResume_startFresh_iff (e init : Nat) (sizes : List Nat) :
    locateResume e init sizes = .startFresh ↔ e ≤ init := by
  unfold locateResume
  by_cases hle : e ≤ init
  · simp [hle]
  · simp only [if_neg hle]
    rcases hfr : findResume (e - init) sizes with _ | i' <;> simp <;> omega

lemma locateResume_resumeAt_iff (e init : Nat) (sizes : List Nat) (i : Nat) :
    locateResume e init sizes = .resumeAt i ↔
      init < e ∧ i < sizes.length ∧ e - init < (sizes.take (i + 1)).sum ∧
        ∀ j, j < i → (sizes.take (j + 1)).sum ≤ e - init := by
  unfold locateResume
  by_cases hle : e ≤ init
  · simp only [if_pos hle, reduceCtorEq, false_iff]
    rintro ⟨h1, -⟩
    omega
  · simp only [if_neg hle]
    rcases hfr : findResume (e - init) sizes with _ | i'
    · have hnone := hfr
      rw [findResume, findResumeAux_eq_none] at hnone
      show ResumePoint.alreadyComplete = ResumePoint.resumeAt i ↔ _
      simp only [reduceCtorEq, false_iff]
      rintro ⟨-, h2, h3, -⟩
      have := hnone i h2
      omega
    · have hsome := hfr
      rw [findResume, findResumeAux_eq_some] at hsome
      obtain ⟨i0, hi0len, hi0eq, hd0, hm0⟩ := hsome
      show ResumePoint.resumeAt i' = ResumePoint.resumeAt i ↔ _
      constructor
      · intro hc
        injection hc with hii
        have hieq : i = i0 := by omega
        subst hieq
        refine ⟨by omega, by omega, by omega, ?_⟩
        intro j hj
        have := hm0 j hj
        omega
      · rintro ⟨h1, h2, h3, h4⟩
        have hii : i = i0 := by
          rcases Nat.lt_trichotomy i i0 with hlt | heq | hgt
          · have := hm0 i hlt
            omega
          · exact heq
          · have := h4 i0 hgt
            omega
        subst hii
        have : i' = i := by omega
        rw [this]

lemma locateResume_alreadyComplete_iff (e init : Nat) (sizes : List Nat) :
    locateResume e init sizes = .alreadyComplete ↔
      init < e ∧ ∀ i, i < sizes.length → (sizes.take (i + 1)).sum ≤ e - init := by
  unfold locateResume
  by_cases hle : e ≤ init
  · simp only [if_pos hle, reduceCtorEq, false_iff]
    rintro ⟨h1, -⟩
    omega
  · simp only [if_neg hle]
    rcases hfr : findResume (e - init) sizes with _ | i'
    · have hnone := hfr
      rw [findResume, findResumeAux_eq_none] at hnone
      show ResumePoint.alreadyComplete = ResumePoint.alreadyComplete ↔ _
      constructor
      · intro _
        exact ⟨by omega, fun i hi => by have := hnone i hi; omega⟩
      · intro _
        rfl
    · have hsome := hfr
      rw [findResume, findResumeAux_eq_some] at hsome
      obtain ⟨i0, hi0, hj0, hd0, -⟩ := hsome
      show ResumePoint.resumeAt i' = ResumePoint.alreadyComplete ↔ _
      simp only [reduceCtorEq, false_iff]
      rintro ⟨-, h2⟩
      have := h2 i0 hi0
      omega

/-- C1: the resume locator returns `StartFresh` whenever
`existingFileSize ≤ initSizeBytes` (including a nonexistent file of size 0);
otherwise, with `downloadedMediaBytes = existingFileSize - initSizeBytes`,
it returns `ResumeAt i` exactly for the first index `i` whose running
cumulative segment-size sum strictly exceeds `downloadedMediaBytes`, and
`AlreadyComplete` exactly when no index's cumulative sum exceeds it. -/
theorem resume_locator_correct (e init : Nat) (sizes : List Nat) :
    (e ≤ init → locateResume e init sizes = .startFresh) ∧
    (init < e →
      (∀ i, locateResume e init sizes = .resumeAt i ↔
          i < sizes.length ∧ e - init < (sizes.take (i + 1)).sum ∧
            ∀ j, j < i → (sizes.take (j + 1)).sum ≤ e - init) ∧
        (locateResume e init sizes = .alreadyComplete ↔
          ∀ i, i < sizes.length → (sizes.take (i + 1)).sum ≤ e - init)) := by
  refine ⟨fun h => (locateResume_startFresh_iff e init sizes).mpr h, fun h => ⟨?_, ?_⟩⟩
  · intro i
    rw [locateResume_resumeAt_iff]
    constructor
    · rintro ⟨-, h2, h3, h4⟩
      exact ⟨h2, h3, h4⟩
    · rintro ⟨h2, h3, h4⟩
      exact ⟨h, h2, h3, h4⟩
  · rw [locateResume_alreadyComplete_iff]
    constructor
    · rintro ⟨-, h2⟩
      exact h2
    · intro h2
      exact ⟨h, h2⟩

theorem resume_locator_correct_witness :
    locateResume 1550 50 [1000, 1000, 1000] = .resumeAt 1 :=
  (((resume_locator_correct 1550 50 [1000, 1000, 1000]).2 (by decide)).1 1).mpr
    (by decide)

/-- C9: the resume locator never targets a zero-length segment: whenever it
returns `ResumeAt i`, segment `i` has strictly positive size, so the strict
`>` comparison guarantees forward progress even with zero-size segments in
the list (in particular the "zero-length final segment as the only segment
unaccounted for" exception never materialises as a resume point). -/
theorem resume_never_zero_segment (e init : Nat) (sizes : List Nat) (i : Nat)
    (h : locateResume e init sizes = .resumeAt i) :
    ∃ hi : i < sizes.length, 0 < sizes.get ⟨i, hi⟩ := by
  rw [locateResume_resumeAt_iff] at h
  obtain ⟨he, hi, hd, hall⟩ := h
  refine ⟨hi, ?_⟩
  have hsucc : (sizes.take (i + 1)).sum = (sizes.take i).sum + sizes[i] := by
    simpa using List.sum_take_succ sizes i hi
  have htake : (sizes.take i).sum ≤ e - init := by
    cases i with
    | zero => simp
    | succ i' => exact hall i' (by omega)
  have hget : sizes.get ⟨i, hi⟩ = sizes[i] := rfl
  rw [hget]
  omega

theorem resume_never_zero_segment_witness :
    ∃ hi : 1 < [0, 5, 0].length, 0 < [0, 5, 0].get ⟨1, hi⟩ :=
  resume_never_zero_segment 51 50 [0, 5, 0] 1 (by decide)

/-
Properties of `pyMax` under a strict-order comparison.
-/

lemma boolLt_asymm (lt : α → α → Bool)
    (htrans : ∀ a b c, lt a b = true → lt b c = true → lt a c = true)
    (hirrefl : ∀ a, lt a a = false) :
    ∀ a b, lt a b = true → lt b a = false := by
  intro a b hab
  cases hba : lt b a
  · rfl
  · have hcontra := htrans a b a hab hba
    rw [hirrefl] at hcontra
    exact Bool.noConfusion hcontra

lemma pyMaxAux_ub (lt : α → α → Bool)
    (htrans : ∀ a b c, lt a b = true → lt b c = true → lt a c = true)
    (hirrefl : ∀ a, lt a a = false) :
    ∀ (xs : List α) (acc : α),
      (pyMaxAux lt acc xs = acc ∨ lt acc (pyMaxAux lt acc xs) = true) ∧
        ∀ y ∈ xs, lt (pyMaxAux lt acc xs) y = false := by
  intro xs
  induction xs with
  | nil => intro acc; simp [pyMaxAux]
  | cons y ys ih =>
    intro acc
    simp only [pyMaxAux]
    by_cases hy : lt acc y = true
    · rw [if_pos hy]
      obtain ⟨ih1, ih2⟩ := ih y
      constructor
      · rcases ih1 with h | h
        · right
          rw [h]
          exact hy
        · right
          exact htrans _ _ _ hy h
      · intro z hz
        rcases List.mem_cons.mp hz with rfl | hz'
        · rcases ih1 with h | h
          · rw [h]
            exact hirrefl z
          · exact boolLt_asymm lt htrans hirrefl _ _ h
        · exact ih2 z hz'
    · rw [if_neg hy]
      have hy' : lt acc y = false := by
        revert hy
        cases lt acc y <;> simp
      obtain ⟨ih1, ih2⟩ := ih acc
      refine ⟨ih1, ?_⟩
      intro z hz
      rcases List.mem_cons.mp hz with rfl | hz'
      · rcases ih1 with h | h
        · rw [h]
          exact hy'
        · cases hrz : lt (pyMaxAux lt acc ys) z
          · rfl
          · have := htrans _ _ _ h hrz
            rw [hy'] at this
            exact Bool.noConfusion this
      · exact ih2 z hz'

lemma pyMaxAux_first (lt : α → α → Bool)
    (htrans : ∀ a b c, lt a b = true → lt b c = true → lt a c = true)
    (hconn : ∀ a b c, lt a b = false → lt a c = true → lt b c = true) :
    ∀ (xs : List α) (acc : α),
      pyMaxAux lt acc xs = acc ∨
        ∃ l₁ l₂, xs = l₁ ++ pyMaxAux lt acc xs :: l₂ ∧
          ∀ y ∈ acc :: l₁, lt y (pyMaxAux lt acc xs) = true := by
  intro xs
  induction xs with
  | nil => intro acc; left; rfl
  | cons y ys ih =>
    intro acc
    simp only [pyMaxAux]
    by_cases hy : lt acc y = true
    · rw [if_pos hy]
      rcases ih y with h | ⟨l₁, l₂, heq, hall⟩
      · right
        refine ⟨[], ys, by simp [h], ?_⟩
        intro z hz
        have hz' : z = acc := by simpa using hz
        subst hz'
        rw [h]
        exact hy
      · right
        refine ⟨y :: l₁, l₂, congrArg (List.cons y) heq, ?_⟩
        intro z hz
        rcases List.mem_cons.mp hz with rfl | hz'
        · exact htrans _ _ _ hy (hall y (List.mem_cons_self y l₁))
        · exact hall z hz'
    · rw [if_neg hy]
      have hy' : lt acc y = false := by
        revert hy
        cases lt acc y <;> simp
      rcases ih acc with h | ⟨l₁, l₂, heq, hall⟩
      · left
        exact h
      · right
        refine ⟨y :: l₁, l₂, congrArg (List.cons y) heq, ?_⟩
        intro z hz
        rcases List.mem_cons.mp hz with rfl | hz'
        · exact hall z (List.mem_cons_self z l₁)
        · rcases List.mem_cons.mp hz' with rfl | hz''
          · exact hconn _ _ _ hy' (hall acc (List.mem_cons_self acc l₁))
          · exact hall z (List.mem_cons_of_mem acc hz'')

/-
The two concrete scoring orders are strict total orders.
-/

lemma tripLt_trans (p q r : Nat × Nat × Nat) :
    tripLt p q → tripLt q r → tripLt p r := by
  unfold tripLt
  omega

lemma tripLt_irrefl (p : Nat × Nat × Nat) : ¬tripLt p p := by
  unfold tripLt
  omega

lemma tripLt_total (p q : Nat × Nat × Nat) :
    tripLt p q ∨ tripLt q p ∨ p = q := by
  obtain ⟨p1, p2, p3⟩ := p
  obtain ⟨q1, q2, q3⟩ := q
  simp only [tripLt, Prod.mk.injEq]
  omega

lemma ltVideo_trans :
    ∀ a b c, ltVideo a b = true → ltVideo b c = true → ltVideo a c = true := by
  intro a b c h1 h2
  simp only [ltVideo, decide_eq_true_eq] at *
  exact tripLt_trans _ _ _ h1 h2

lemma ltVideo_irrefl : ∀ a, ltVideo a a = false := by
  intro a
  simp only [ltVideo, decide_eq_false_iff_not]
  exact tripLt_irrefl _

lemma ltVideo_conn :
    ∀ a b c, ltVideo a b = false → ltVideo a c = true → ltVideo b c = true := by
  intro a b c h1 h2
  simp only [ltVideo, decide_eq_false_iff_not, decide_eq_true_eq] at *
  rcases tripLt_total (videoKey b) (videoKey c) with h | h | h
  · exact h
  · exfalso
    rcases tripLt_total (videoKey a) (videoKey b) with g | g | g
    · exact h1 g
    · exact tripLt_irrefl _ (tripLt_trans _ _ _ h2 (tripLt_trans _ _ _ h g))
    · rw [g] at h2
      exact tripLt_irrefl _ (tripLt_trans _ _ _ h2 h)
  · rw [← h] at h2
    exact absurd h2 h1

lemma ltAudio_trans :
    ∀ a b c, ltAudio a b = true → ltAudio b c = true → ltAudio a c = true := by
  intro a b c h1 h2
  simp only [ltAudio, decide_eq_true_eq] at *
  omega

lemma ltAudio_irrefl : ∀ a, ltAudio a a = false := by
  intro a
  simp only [ltAudio, decide_eq_false_iff_not]
  omega

lemma ltAudio_conn :
    ∀ a b c, ltAudio a b = false → ltAudio a c = true → ltAudio b c = true := by
  intro a b c h1 h2
  simp only [ltAudio, decide_eq_false_iff_not, decide_eq_true_eq] at *
  omega

/-- C3: for every non-empty video list, `_best` returns the first element
maximal under the lexicographic key (height, width, bitrate) with missing
fields as 0 (the returned element's key is ≥ every element's key, and every
strictly earlier element has a strictly smaller key); for every non-empty
audio list it returns the first element maximal under the bitrate key. -/
theorem selector_first_maximal (vl al : List Rendition)
    (hv : vl ≠ []) (ha : al ≠ []) :
    (∃ r, best vl true = some r ∧ r ∈ vl ∧
      (∀ x ∈ vl, tripLt (videoKey x) (videoKey r) ∨ videoKey x = videoKey r) ∧
      ∃ l₁ l₂, vl = l₁ ++ r :: l₂ ∧
        ∀ y ∈ l₁, tripLt (videoKey y) (videoKey r)) ∧
    (∃ r, best al false = some r ∧ r ∈ al ∧
      (∀ x ∈ al, audioKey x ≤ audioKey r) ∧
      ∃ l₁ l₂, al = l₁ ++ r :: l₂ ∧
        ∀ y ∈ l₁, audioKey y < audioKey r) := by
  constructor
  · obtain ⟨x, xs, rfl⟩ := List.exists_cons_of_ne_nil hv
    have hub := pyMaxAux_ub ltVideo ltVideo_trans ltVideo_irrefl xs x
    have hfirst := pyMaxAux_first ltVideo ltVideo_trans ltVideo_conn xs x
    have hdec : ∃ l₁ l₂, x :: xs = l₁ ++ pyMaxAux ltVideo x xs :: l₂ ∧
        ∀ y ∈ l₁, tripLt (videoKey y) (videoKey (pyMaxAux ltVideo x xs)) := by
      rcases hfirst with h | ⟨l₁, l₂, heq, hall⟩
      · exact ⟨[], xs, by rw [h]; rfl, fun y hy => absurd hy (List.not_mem_nil y)⟩
      · refine ⟨x :: l₁, l₂, congrArg (List.cons x) heq, ?_⟩
        intro y hy
        have hb := hall y hy
        simpa [ltVideo, decide_eq_true_eq] using hb
    refine ⟨pyMaxAux ltVideo x xs, rfl, ?_, ?_, hdec⟩
    · obtain ⟨l₁, l₂, heq, -⟩ := hdec
      rw [heq]
      exact List.mem_append_right _ (List.mem_cons_self _ _)
    · intro z hz
      rcases List.mem_cons.mp hz with rfl | hz'
      · rcases hub.1 with h | h
        · right
          rw [h]
        · left
          simpa [ltVideo, decide_eq_true_eq] using h
      · have hzr : ¬tripLt (videoKey (pyMaxAux ltVideo x xs)) (videoKey z) := by
          have hb := hub.2 z hz'
          simpa [ltVideo, decide_eq_false_iff_not] using hb
        rcases tripLt_total (videoKey z) (videoKey (pyMaxAux ltVideo x xs))
          with h | h | h
        · exact Or.inl h
        · exact absurd h hzr
        · exact Or.inr h
  · obtain ⟨x, xs, rfl⟩ := List.exists_cons_of_ne_nil ha
    have hub := pyMaxAux_ub ltAudio ltAudio_trans ltAudio_irrefl xs x
    have hfirst := pyMaxAux_first ltAudio ltAudio_trans ltAudio_conn xs x
    have hdec : ∃ l₁ l₂, x :: xs = l₁ ++ pyMaxAux ltAudio x xs :: l₂ ∧
        ∀ y ∈ l₁, audioKey y < audioKey (pyMaxAux ltAudio x xs) := by
      rcases hfirst with h | ⟨l₁, l₂, heq, hall⟩
      · exact ⟨[], xs, by rw [h]; rfl, fun y hy => absurd hy (List.not_mem_nil y)⟩
      · refine ⟨x :: l₁, l₂, congrArg (List.cons x) heq, ?_⟩
        intro y hy
        have hb := hall y hy
        simpa [ltAudio, decide_eq_true_eq] using hb
    refine ⟨pyMaxAux ltAudio x xs, rfl, ?_, ?_, hdec⟩
    · obtain ⟨l₁, l₂, heq, -⟩ := hdec
      rw [heq]
      exact List.mem_append_right _ (List.mem_cons_self _ _)
    · intro z hz
      rcases List.mem_cons.mp hz with rfl | hz'
      · rcases hub.1 with h | h
        · rw [h]
        · have := by simpa [ltAudio, decide_eq_true_eq] using h
          omega
      · have hb := hub.2 z hz'
        have : ¬(audioKey (pyMaxAux ltAudio x xs) < audioKey z) := by
          simpa [ltAudio, decide_eq_false_iff_not] using hb
        omega

theorem selector_first_maximal_witness :
    ∃ r, best [rend1080, rend720] true = some r ∧ r ∈ [rend1080, rend720] ∧
      (∀ x ∈ [rend1080, rend720],
        tripLt (videoKey x) (videoKey r) ∨ videoKey x = videoKey r) ∧
      ∃ l₁ l₂, [rend1080, rend720] = l₁ ++ r :: l₂ ∧
        ∀ y ∈ l₁, tripLt (videoKey y) (videoKey r) :=
  (selector_first_maximal [rend1080, rend720] [rendAud128]
    (by simp) (by simp)).1

/-- C4 counterexample: the code's scoring key has no average-bitrate
fallback.  `audAvgOnly` carries only an average bitrate (128) yet scores 0,
and the audio selector picks the earlier rendition with both fields absent
rather than preferring the one carrying an average bitrate. -/
theorem bitrate_fallback_counterexample :
    audioKey audAvgOnly = 0 ∧ specEffectiveBitrate audAvgOnly = 128 ∧
    best [audNoRate, audAvgOnly] false = some audNoRate ∧
    audNoRate ≠ audAvgOnly := by
  refine ⟨rfl, rfl, rfl, ?_⟩
  decide

/-- C4 amended: the effective bitrate used for scoring is the `bitrate`
field alone, defaulting to 0 when it is absent; `avg_bitrate` is never
consulted (both scoring keys are invariant under changing it), so an audio
rendition carrying only an average bitrate ties at score 0 with one whose
both fields are absent, and the earlier of the two is selected. -/
theorem bitrate_no_fallback (r s : Rendition) (v : Option Nat)
    (h1 : r.bitrate = none) (h2 : s.bitrate = none) :
    audioKey r = 0 ∧
    audioKey { r with avg_bitrate := v } = audioKey r ∧
    videoKey { r with avg_bitrate := v } = videoKey r ∧
    best [r, s] false = some r := by
  refine ⟨by simp [audioKey, h1], rfl, rfl, ?_⟩
  simp [best, pyMax, pyMaxAux, ltAudio, audioKey, h1, h2]

theorem bitrate_no_fallback_witness :
    audioKey audNoRate = 0 ∧
    audioKey { audNoRate with avg_bitrate := some 999 } = audioKey audNoRate ∧
    videoKey { audNoRate with avg_bitrate := some 999 } = videoKey audNoRate ∧
    best [audNoRate, audAvgOnly] false = some audNoRate :=
  bitrate_no_fallback audNoRate audAvgOnly (some 999) rfl rfl

/-
Behaviour of the download loop and of the three branches of
`_download_resumable`.
-/

lemma downloadResumable_startFresh (rep : Rendition) (file : Option (List Nat))
    (net : Nat → Except String (List Nat))
    (hloc : locateResume (fileSize file) rep.init_data.length
      (rep.segments.map Segment.size) = .startFresh) :
    downloadResumable rep file net =
      ⟨some (downloadLoop net 0 rep.segments rep.init_data []).1,
        (downloadLoop net 0 rep.segments rep.init_data []).2.1, true,
        (downloadLoop net 0 rep.segments rep.init_data []).2.2⟩ := by
  unfold downloadResumable
  rw [hloc]

lemma downloadResumable_resumeAt (rep : Rendition) (file : Option (List Nat))
    (net : Nat → Except String (List Nat)) (i : Nat)
    (hloc : locateResume (fileSize file) rep.init_data.length
      (rep.segments.map Segment.size) = .resumeAt i) :
    downloadResumable rep file net =
      ⟨some (downloadLoop net i (rep.segments.drop i) (file.getD []) []).1,
        (downloadLoop net i (rep.segments.drop i) (file.getD []) []).2.1, true,
        (downloadLoop net i (rep.segments.drop i) (file.getD []) []).2.2⟩ := by
  unfold downloadResumable
  rw [hloc]

lemma downloadResumable_complete (rep : Rendition) (file : Option (List Nat))
    (net : Nat → Except String (List Nat))
    (hloc : locateResume (fileSize file) rep.init_data.length
      (rep.segments.map Segment.size) = .alreadyComplete) :
    downloadResumable rep file net = ⟨file, [], false, Except.ok ()⟩ := by
  unfold downloadResumable
  rw [hloc]

lemma downloadLoop_ok (net : Nat → Except String (List Nat))
    (bs : Nat → List Nat) :
    ∀ (segs : List Segment) (k : Nat) (f reqs : List Nat),
      (∀ m, m < segs.length → net (k + m) = Except.ok (bs (k + m))) →
      downloadLoop net k segs f reqs =
        (f ++ ((List.range' k segs.length).map bs).flatten,
         reqs ++ List.range' k segs.length,
         Except.ok ()) := by
  intro segs
  induction segs with
  | nil =>
    intro k f reqs h
    simp [downloadLoop]
  | cons s rest ih =>
    intro k f reqs h
    have h0 : net k = Except.ok (bs k) := by
      have hx := h 0 (by simp)
      simpa using hx
    simp only [downloadLoop, h0]
    rw [ih (k + 1) (f ++ bs k) (reqs ++ [k]) ?hnet]
    case hnet =>
      intro m hm
      have hx := h (m + 1) (by simp; omega)
      rw [show k + (m + 1) = k + 1 + m from by omega] at hx
      exact hx
    simp only [List.length_cons, List.range'_succ, List.map_cons,
      List.flatten_cons, List.append_assoc, List.singleton_append]

lemma downloadLoop_error (net : Nat → Except String (List Nat))
    (bs : Nat → List Nat) (j : Nat) (e : String) :
    ∀ (segs : List Segment) (k : Nat) (f reqs : List Nat),
      k ≤ j → j - k < segs.length → net j = Except.error e →
      (∀ m, k ≤ m → m < j → net m = Except.ok (bs m)) →
      downloadLoop net k segs f reqs =
        (f ++ ((List.range' k (j - k)).map bs).flatten,
         reqs ++ List.range' k (j - k + 1),
         Except.error ⟨j, e⟩) := by
  intro segs
  induction segs with
  | nil =>
    intro k f reqs hk hlen hfail hok
    simp at hlen
  | cons s rest ih =>
    intro k f reqs hk hlen hfail hok
    by_cases hkj : k = j
    · subst hkj
      simp only [downloadLoop, hfail]
      simp [Nat.sub_self]
    · have hk' : k < j := by omega
      have h0 : net k = Except.ok (bs k) := hok k (Nat.le_refl k) hk'
      simp only [downloadLoop, h0]
      rw [ih (k + 1) (f ++ bs k) (reqs ++ [k]) (by omega)
        (by simp only [List.length_cons] at hlen; omega) hfail
        (fun m hm1 hm2 => hok m (by omega) hm2)]
      have hjk : j - k = (j - (k + 1)) + 1 := by omega
      rw [hjk]
      simp only [List.range'_succ, List.map_cons, List.flatten_cons,
        List.append_assoc, List.singleton_append]

lemma downloadLoop_file_extends (net : Nat → Except String (List Nat)) :
    ∀ (segs : List Segment) (k : Nat) (f reqs : List Nat),
      ∃ rest, (downloadLoop net k segs f reqs).1 = f ++ rest := by
  intro segs
  induction segs with
  | nil =>
    intro k f reqs
    exact ⟨[], by simp [downloadLoop]⟩
  | cons s rest ih =>
    intro k f reqs
    simp only [downloadLoop]
    cases hnet : net k with
    | ok bytes =>
      obtain ⟨r, hr⟩ := ih (k + 1) (f ++ bytes) (reqs ++ [k])
      exact ⟨bytes ++ r, by rw [hr, List.append_assoc]⟩
    | error e => exact ⟨[], by simp⟩

lemma sum_take_le (l : List Nat) (k : Nat) : (l.take k).sum ≤ l.sum := by
  conv_rhs => rw [← List.take_append_drop k l]
  rw [List.sum_append]
  omega

lemma map_range'_eq (L : List α) (g : Nat → β) (f : α → β)
    (h : ∀ m, (hm : m < L.length) → g m = f (L.get ⟨m, hm⟩)) :
    (List.range' 0 L.length).map g = L.map f := by
  apply List.ext_get
  · simp
  · intro n h1 h2
    simp only [List.get_eq_getElem, List.getElem_map, List.getElem_range']
    have hn : n < L.length := by simpa using h2
    rw [show 0 + 1 * n = n from by omega]
    exact h n hn

lemma flatten_bodies_length (segs : List Segment) (bs : Nat → List Nat)
    (hsize : ∀ m, (hm : m < segs.length) →
      (bs m).length = (segs.get ⟨m, hm⟩).size) :
    (((List.range' 0 segs.length).map bs).flatten).length =
      (segs.map Segment.size).sum := by
  rw [List.length_flatten, List.map_map]
  rw [map_range'_eq segs (List.length ∘ bs) Segment.size
    (fun m hm => hsize m hm)]

/-- C2 counterexample: resuming does not truncate the file.  With segment
sizes [10, 10, 10], an init block of 5 bytes and an existing 20-byte file,
the locator resumes at segment 1; the claim's truncation to 5 + 10 = 15
bytes would make a fully successful resumed run end at 15 + 10 + 10 = 35
bytes, but the code opens in append mode and the run ends at 20 + 10 + 10 =
40 bytes — the 5 stray trailing bytes are kept, not discarded. -/
theorem resume_truncation_counterexample :
    locateResume (fileSize (some fileC2)) repC2.init_data.length
        (repC2.segments.map Segment.size) = .resumeAt 1 ∧
    (downloadResumable repC2 (some fileC2) netExact10).outcome =
      Except.ok () ∧
    ((downloadResumable repC2 (some fileC2) netExact10).file.map
        List.length) = some 40 ∧
    (40 : Nat) ≠ (repC2.init_data.length + 10) + (10 + 10) := by
  exact ⟨by decide, rfl, rfl, by decide⟩

/-- C2 amended: when fetch resumes at segment index i the file is NOT
truncated — it is opened in append mode, so every new segment byte is
appended after all existingFileSize existing bytes, and any partially
written trailing bytes of the interrupted segment remain in place; e.g.
with sizes [1000, 1000, 1000], initSizeBytes = 50 and existingFileSize =
1550 appending starts at offset 1550, not 1050. -/
theorem resume_appends_without_truncation (rep : Rendition)
    (contents : List Nat) (net : Nat → Except String (List Nat)) (i : Nat)
    (hloc : locateResume contents.length rep.init_data.length
      (rep.segments.map Segment.size) = .resumeAt i) :
    ∃ rest, (downloadResumable rep (some contents) net).file =
      some (contents ++ rest) := by
  rw [downloadResumable_resumeAt rep (some contents) net i hloc]
  obtain ⟨rest, hr⟩ :=
    downloadLoop_file_extends net (rep.segments.drop i) i contents []
  refine ⟨rest, ?_⟩
  show some (downloadLoop net i (rep.segments.drop i) contents []).1 =
    some (contents ++ rest)
  rw [hr]

theorem resume_appends_without_truncation_witness :
    ∃ rest, (downloadResumable repC2 (some fileC2) netExact10).file =
      some (fileC2 ++ rest) :=
  resume_appends_without_truncation repC2 fileC2 netExact10 1 (by decide)

/-- C7: when the fetch of segment j fails, the run aborts at once — the
requests issued are exactly those for segments s..j (none after j), the
file holds exactly the bytes written through the last fully completed
segment (no partial bytes of the failing segment), and the error carries
the failing segment's index and cause.  `s`/`f0` are the resume plan
(start index and file contents at open time) fixed by the locator. -/
theorem fetch_failure_aborts (rep : Rendition) (file : Option (List Nat))
    (net : Nat → Except String (List Nat)) (bs : Nat → List Nat)
    (s : Nat) (f0 : List Nat) (j : Nat) (e : String)
    (hplan :
      (locateResume (fileSize file) rep.init_data.length
          (rep.segments.map Segment.size) = .startFresh ∧ s = 0 ∧
        f0 = rep.init_data) ∨
      (locateResume (fileSize file) rep.init_data.length
          (rep.segments.map Segment.size) = .resumeAt s ∧
        f0 = file.getD []))
    (hs : s ≤ j) (hj : j < rep.segments.length)
    (hfail : net j = Except.error e)
    (hok : ∀ m, s ≤ m → m < j → net m = Except.ok (bs m)) :
    (downloadResumable rep file net).outcome = Except.error ⟨j, e⟩ ∧
    (downloadResumable rep file net).requests =
      List.range' s (j - s + 1) ∧
    (downloadResumable rep file net).file =
      some (f0 ++ ((List.range' s (j - s)).map bs).flatten) := by
  rcases hplan with ⟨hloc, hs0, hf0⟩ | ⟨hloc, hf0⟩
  · subst hs0
    subst hf0
    rw [downloadResumable_startFresh rep file net hloc]
    rw [downloadLoop_error net bs j e rep.segments 0 rep.init_data []
      (Nat.zero_le j) (by simpa using hj) hfail
      (fun m hm1 hm2 => hok m hm1 hm2)]
    exact ⟨rfl, rfl, rfl⟩
  · subst hf0
    rw [downloadResumable_resumeAt rep file net s hloc]
    rw [downloadLoop_error net bs j e (rep.segments.drop s) s (file.getD [])
      [] hs (by simp only [List.length_drop]; omega) hfail hok]
    exact ⟨rfl, rfl, rfl⟩

theorem fetch_failure_aborts_witness :
    (downloadResumable repC7 none netFail1).outcome =
      Except.error ⟨1, "boom"⟩ ∧
    (downloadResumable repC7 none netFail1).requests =
      List.range' 0 (1 - 0 + 1) ∧
    (downloadResumable repC7 none netFail1).file =
      some ([9] ++ ((List.range' 0 (1 - 0)).map (fun _ => [5])).flatten) :=
  fetch_failure_aborts repC7 none netFail1 (fun _ => [5]) 0 [9] 1 "boom"
    (Or.inl ⟨by decide, rfl, rfl⟩) (by decide) (by decide) rfl
    (fun m hm1 hm2 => by
      have hm0 : m = 0 := by omega
      subst hm0
      rfl)

/-- C5 counterexample: a rendition whose only segment has declared size 0
breaks the idempotence claim.  The first fresh run completes fully and
leaves a file of exactly init-block size; the second invocation then takes
the "file is incomplete, starting over" branch, opens the file for writing
and issues a network request again — not zero additional requests. -/
theorem second_fetch_refetches_counterexample :
    (downloadResumable repZero none netEmpty).outcome = Except.ok () ∧
    (downloadResumable repZero none netEmpty).file = some [7] ∧
    (downloadResumable repZero
        (downloadResumable repZero none netEmpty).file netEmpty).requests =
      [0] ∧
    (downloadResumable repZero
        (downloadResumable repZero none netEmpty).file
        netEmpty).openedForWrite = true := by
  exact ⟨rfl, rfl, rfl, rfl⟩

/-- C5 amended: provided each segment's fetched body has exactly its
declared size and the total declared segment size is positive, a second
invocation of fetch that sees the final file state of a fully completed
first invocation performs zero network requests, leaves the file unchanged
and returns success via the already-complete branch, before the file is
ever opened for writing.  (Without the positivity proviso the completed
file is exactly init-block sized and the second run starts over,
refetching — see the counterexample.) -/
theorem second_fetch_idempotent (rep : Rendition)
    (net : Nat → Except String (List Nat)) (bs : Nat → List Nat)
    (hok : ∀ m, m < rep.segments.length → net m = Except.ok (bs m))
    (hsize : ∀ m, (hm : m < rep.segments.length) →
      (bs m).length = (rep.segments.get ⟨m, hm⟩).size)
    (hpos : 0 < (rep.segments.map Segment.size).sum) :
    (downloadResumable rep none net).outcome = Except.ok () ∧
    (downloadResumable rep
        (downloadResumable rep none net).file net).requests = [] ∧
    (downloadResumable rep (downloadResumable rep none net).file net).file =
      (downloadResumable rep none net).file ∧
    (downloadResumable rep
        (downloadResumable rep none net).file net).openedForWrite = false ∧
    (downloadResumable rep
        (downloadResumable rep none net).file net).outcome =
      Except.ok () := by
  have hloc1 : locateResume (fileSize (none : Option (List Nat)))
      rep.init_data.length (rep.segments.map Segment.size) = .startFresh := by
    rw [locateResume_startFresh_iff]
    exact Nat.zero_le _
  have h1 : downloadResumable rep none net =
      ⟨some (rep.init_data ++
          ((List.range' 0 rep.segments.length).map bs).flatten),
        [] ++ List.range' 0 rep.segments.length, true, Except.ok ()⟩ := by
    rw [downloadResumable_startFresh rep none net hloc1]
    rw [downloadLoop_ok net bs rep.segments 0 rep.init_data []
      (fun m hm => by simpa using hok m hm)]
  have hclen : (rep.init_data ++
      ((List.range' 0 rep.segments.length).map bs).flatten).length =
      rep.init_data.length + (rep.segments.map Segment.size).sum := by
    rw [List.length_append, flatten_bodies_length rep.segments bs hsize]
  have hloc2 : locateResume
      (fileSize (some (rep.init_data ++
        ((List.range' 0 rep.segments.length).map bs).flatten)))
      rep.init_data.length (rep.segments.map Segment.size) =
      .alreadyComplete := by
    rw [locateResume_alreadyComplete_iff]
    constructor
    · show rep.init_data.length < (rep.init_data ++
        ((List.range' 0 rep.segments.length).map bs).flatten).length
      rw [hclen]
      omega
    · intro i hi
      have htk := sum_take_le (rep.segments.map Segment.size) (i + 1)
      show ((rep.segments.map Segment.size).take (i + 1)).sum ≤
        (rep.init_data ++
          ((List.range' 0 rep.segments.length).map bs).flatten).length -
          rep.init_data.length
      rw [hclen]
      omega
  have h2 := downloadResumable_complete rep
    (some (rep.init_data ++
      ((List.range' 0 rep.segments.length).map bs).flatten)) net hloc2
  refine ⟨by rw [h1], ?_, ?_, ?_, ?_⟩ <;> rw [h1] <;> rw [h2]

theorem second_fetch_idempotent_witness :
    (downloadResumable repOne none netTwo).outcome = Except.ok () ∧
    (downloadResumable repOne
        (downloadResumable repOne none netTwo).file netTwo).requests = [] ∧
    (downloadResumable repOne
        (downloadResumable repOne none netTwo).file netTwo).file =
      (downloadResumable repOne none netTwo).file ∧
    (downloadResumable repOne
        (downloadResumable repOne none netTwo).file
        netTwo).openedForWrite = false ∧
    (downloadResumable repOne
        (downloadResumable repOne none netTwo).file netTwo).outcome =
      Except.ok () :=
  second_fetch_idempotent repOne netTwo (fun _ => [3, 4])
    (fun _ _ => rfl)
    (fun m hm => by
      have hm0 : m = 0 := by
        have := hm
        simp [repOne] at this
        omega
      subst hm0
      rfl)
    (by decide)

/-- C6 counterexample: an audio-only request against a manifest that has a
populated audio list but no video key fails with the unsupported-manifest
exit, although the claim says audio-only mode does not require a video
list; the structure check is `"video" in data and "audio" in data`,
irrespective of mode.  (No download is attempted, so no file is touched.) -/
theorem manifest_unsupported_counterexample :
    (mainRun manifestNoVideo true "out.mp4" emptyFs netEmpty netEmpty
        true).outcome = Except.error .manifestUnsupported ∧
    (mainRun manifestNoVideo true "out.mp4" emptyFs netEmpty netEmpty
        true).fetchedPaths = [] ∧
    ¬specRequiredListMissing manifestNoVideo true := by
  refine ⟨rfl, rfl, ?_⟩
  decide

lemma mainRun_not_unsupported (vl al : List Rendition) (b : String)
    (audioOnly : Bool) (output : String) (fs : String → Option (List Nat))
    (netV netA : Nat → Except String (List Nat)) (muxOk : Bool) :
    (mainRun ⟨b, some vl, some al⟩ audioOnly output fs netV netA
        muxOk).outcome ≠ Except.error .manifestUnsupported := by
  intro hc
  simp only [mainRun] at hc
  split at hc
  · split at hc
    · simp at hc
    · split at hc
      · simp at hc
      · simp at hc
  · split at hc
    · simp at hc
    · split at hc
      · simp at hc
      · split at hc
        · simp at hc
        · split at hc
          · simp at hc
          · split at hc
            · simp at hc
            · simp at hc

/-- C6 amended: the run fails with the unsupported-manifest error exactly
when the top-level `video` key or the top-level `audio` key is missing,
irrespective of the requested mode — audio-only mode does require the
video key to be present, and an empty-but-present required list does not
trigger this error (it surfaces later as a selector error); when the
unsupported-manifest exit fires, no download is started and no output
path is touched. -/
theorem manifest_unsupported_characterisation (data : Manifest)
    (audioOnly : Bool) (output : String) (fs : String → Option (List Nat))
    (netV netA : Nat → Except String (List Nat)) (muxOk : Bool) :
    ((mainRun data audioOnly output fs netV netA muxOk).outcome =
        Except.error .manifestUnsupported ↔
      (data.video = none ∨ data.audio = none)) ∧
    ((data.video = none ∨ data.audio = none) →
      (mainRun data audioOnly output fs netV netA muxOk).fetchedPaths =
        []) := by
  obtain ⟨b, v, a⟩ := data
  rcases v with _ | vl
  · rcases a with _ | al <;> exact ⟨by simp [mainRun], fun _ => rfl⟩
  · rcases a with _ | al
    · exact ⟨by simp [mainRun], fun _ => rfl⟩
    · constructor
      · constructor
        · intro hc
          exact absurd hc
            (mainRun_not_unsupported vl al b audioOnly output fs netV netA
              muxOk)
        · intro hc
          simp at hc
      · intro hc
        simp at hc

theorem manifest_unsupported_characterisation_witness :
    (mainRun manifestNoVideo true "out.mp4" emptyFs netEmpty netEmpty
        true).fetchedPaths = [] :=
  (manifest_unsupported_characterisation manifestNoVideo true "out.mp4"
    emptyFs netEmpty netEmpty true).2 (Or.inl rfl)

/-- C8: in combined mode the mux step is invoked exactly when both track
fetches completed fully; a mux failure terminates the run with the mux
error and removes neither temporary track file; the cleanup that removes
the two temporary files happens only on a run whose mux succeeded. -/
theorem mux_only_after_both_fetches (data : Manifest) (output : String)
    (fs : String → Option (List Nat))
    (netV netA : Nat → Except String (List Nat)) (muxOk : Bool)
    (vl al : List Rendition)
    (hv : data.video = some vl) (ha : data.audio = some al) :
    ((mainRun data false output fs netV netA muxOk).muxInvoked = true ↔
      ∃ vrep arep, best vl true = some vrep ∧ best al false = some arep ∧
        (downloadResumable vrep (fs tmpVideoName) netV).outcome =
          Except.ok () ∧
        (downloadResumable arep (fs tmpAudioName) netA).outcome =
          Except.ok ()) ∧
    ((mainRun data false output fs netV netA muxOk).muxInvoked = true →
      muxOk = false →
      (mainRun data false output fs netV netA muxOk).outcome =
          Except.error .muxError ∧
        (mainRun data false output fs netV netA muxOk).tmpRemoved = []) ∧
    ((mainRun data false output fs netV netA muxOk).tmpRemoved ≠ [] →
      muxOk = true ∧
        (mainRun data false output fs netV netA muxOk).muxInvoked = true ∧
        (mainRun data false output fs netV netA muxOk).tmpRemoved =
          [tmpVideoName, tmpAudioName]) := by
  rcases hbv : best vl true with _ | vrep
  · have hm : mainRun data false output fs netV netA muxOk =
        ⟨Except.error .selectorError, false, [], []⟩ := by
      simp [mainRun, hv, ha, hbv]
    rw [hm]
    refine ⟨?_, ?_, ?_⟩
    · constructor
      · intro h
        simp at h
      · rintro ⟨vrep2, arep2, h1, h2, h3, h4⟩
        exact Option.noConfusion h1
    · intro h
      simp at h
    · intro h
      simp at h
  · rcases hba : best al false with _ | arep
    · have hm : mainRun data false output fs netV netA muxOk =
          ⟨Except.error .selectorError, false, [], []⟩ := by
        simp [mainRun, hv, ha, hbv, hba]
      rw [hm]
      refine ⟨?_, ?_, ?_⟩
      · constructor
        · intro h
          simp at h
        · rintro ⟨vrep2, arep2, h1, h2, h3, h4⟩
          exact Option.noConfusion h2
      · intro h
        simp at h
      · intro h
        simp at h
    · cases hrv : (downloadResumable vrep (fs tmpVideoName) netV).outcome with
      | error err =>
        have hm : mainRun data false output fs netV netA muxOk =
            ⟨Except.error (.fetchError err), false, [], [tmpVideoName]⟩ := by
          simp [mainRun, hv, ha, hbv, hba, hrv]
        rw [hm]
        refine ⟨?_, ?_, ?_⟩
        · constructor
          · intro h
            simp at h
          · rintro ⟨vrep2, arep2, h1, h2, h3, h4⟩
            injection h1 with h1
            subst h1
            rw [hrv] at h3
            exact Except.noConfusion h3
        · intro h
          simp at h
        · intro h
          simp at h
      | ok u =>
        cases hra : (downloadResumable arep (fs tmpAudioName) netA).outcome
          with
        | error err =>
          have hm : mainRun data false output fs netV netA muxOk =
              ⟨Except.error (.fetchError err), false, [],
                [tmpVideoName, tmpAudioName]⟩ := by
            simp [mainRun, hv, ha, hbv, hba, hrv, hra]
          rw [hm]
          refine ⟨?_, ?_, ?_⟩
          · constructor
            · intro h
              simp at h
            · rintro ⟨vrep2, arep2, h1, h2, h3, h4⟩
              injection h2 with h2
              subst h2
              rw [hra] at h4
              exact Except.noConfusion h4
          · intro h
            simp at h
          · intro h
            simp at h
        | ok u2 =>
          cases muxOk with
          | false =>
            have hm : mainRun data false output fs netV netA false =
                ⟨Except.error .muxError, true, [],
                  [tmpVideoName, tmpAudioName]⟩ := by
              simp [mainRun, hv, ha, hbv, hba, hrv, hra]
            rw [hm]
            refine ⟨?_, ?_, ?_⟩
            · constructor
              · intro _
                exact ⟨vrep, arep, rfl, rfl, hrv, hra⟩
              · intro _
                rfl
            · intro _ _
              exact ⟨rfl, rfl⟩
            · intro h
              exact absurd rfl h
          | true =>
            have hm : mainRun data false output fs netV netA true =
                ⟨Except.ok (), true, [tmpVideoName, tmpAudioName],
                  [tmpVideoName, tmpAudioName]⟩ := by
              simp [mainRun, hv, ha, hbv, hba, hrv, hra]
            rw [hm]
            refine ⟨?_, ?_, ?_⟩
            · constructor
              · intro _
                exact ⟨vrep, arep, rfl, rfl, hrv, hra⟩
              · intro _
                rfl
            · intro _ hfalse
              exact Bool.noConfusion hfalse
            · intro _
              exact ⟨rfl, rfl, rfl⟩

theorem mux_only_after_both_fetches_witness :
    (mainRun manifestBoth false "movie.mp4" emptyFs netEmpty netEmpty
        false).outcome = Except.error .muxError ∧
    (mainRun manifestBoth false "movie.mp4" emptyFs netEmpty netEmpty
        false).tmpRemoved = [] :=
  (mux_only_after_both_fetches manifestBoth "movie.mp4" emptyFs netEmpty
    netEmpty false [rend1080] [rendAud128] rfl rfl).2.1 rfl rfl

/-- C10: in combined mode the video track is always fetched into the fixed
relative path "tmp_video.mp4" and the audio track into "tmp_audio.m4a",
whatever output path was requested: the paths handed to the downloader are
these constants, and the whole trace is independent of the output
argument (resume state is keyed to the constant names). -/
theorem combined_mode_fixed_tmp_paths (data : Manifest) (out1 out2 : String)
    (fs : String → Option (List Nat))
    (netV netA : Nat → Except String (List Nat)) (muxOk : Bool)
    (vl al : List Rendition) (vrep arep : Rendition)
    (hv : data.video = some vl) (ha : data.audio = some al)
    (hbv : best vl true = some vrep) (hba : best al false = some arep) :
    ((mainRun data false out1 fs netV netA muxOk).fetchedPaths =
        ["tmp_video.mp4"] ∨
      (mainRun data false out1 fs netV netA muxOk).fetchedPaths =
        ["tmp_video.mp4", "tmp_audio.m4a"]) ∧
    (mainRun data false out1 fs netV netA muxOk).fetchedPaths =
      (mainRun data false out2 fs netV netA muxOk).fetchedPaths := by
  constructor
  · cases hrv : (downloadResumable vrep (fs tmpVideoName) netV).outcome with
    | error err =>
      left
      have hm : mainRun data false out1 fs netV netA muxOk =
          ⟨Except.error (.fetchError err), false, [], [tmpVideoName]⟩ := by
        simp [mainRun, hv, ha, hbv, hba, hrv]
      rw [hm]
      rfl
    | ok u =>
      right
      cases hra : (downloadResumable arep (fs tmpAudioName) netA).outcome
        with
      | error err =>
        have hm : mainRun data false out1 fs netV netA muxOk =
            ⟨Except.error (.fetchError err), false, [],
              [tmpVideoName, tmpAudioName]⟩ := by
          simp [mainRun, hv, ha, hbv, hba, hrv, hra]
        rw [hm]
        rfl
      | ok u2 =>
        cases muxOk with
        | false =>
          have hm : mainRun data false out1 fs netV netA false =
              ⟨Except.error .muxError, true, [],
                [tmpVideoName, tmpAudioName]⟩ := by
            simp [mainRun, hv, ha, hbv, hba, hrv, hra]
          rw [hm]
          rfl
        | true =>
          have hm : mainRun data false out1 fs netV netA true =
              ⟨Except.ok (), true, [tmpVideoName, tmpAudioName],
                [tmpVideoName, tmpAudioName]⟩ := by
            simp [mainRun, hv, ha, hbv, hba, hrv, hra]
          rw [hm]
          rfl
  · simp [mainRun, hv, ha]

theorem combined_mode_fixed_tmp_paths_witness :
    ((mainRun manifestBoth false "a.mp4" emptyFs netEmpty netEmpty
          true).fetchedPaths = ["tmp_video.mp4"] ∨
      (mainRun manifestBoth false "a.mp4" emptyFs netEmpty netEmpty
          true).fetchedPaths = ["tmp_video.mp4", "tmp_audio.m4a"]) ∧
    (mainRun manifestBoth false "a.mp4" emptyFs netEmpty netEmpty
        true).fetchedPaths =
      (mainRun manifestBoth false "b.mp4" emptyFs netEmpty netEmpty
        true).fetchedPaths :=
  combined_mode_fixed_tmp_paths manifestBoth "a.mp4" "b.mp4" emptyFs
    netEmpty netEmpty true [rend1080] [rendAud128] rend1080 rendAud128
    rfl rfl rfl rfl
